import Mathlib

/-!
Verification of the `hft_data_prep` order-book reconstruction and auction
extraction code (`hft_data_prep/data_loader.py`) against its design
specification.  The Python dataframe pipeline is embedded shallowly: a
dataframe column becomes a field of a record, a dataframe a list of records,
and each pandas operation is translated cell-wise at the point where the
source reads it.  Timestamps are modelled as epoch seconds (`Nat`), prices as
integer ticks (`Nat`), quantities as integers (`Int`).
-/

namespace HftDataPrep

/-- One tick record as consumed by `OrderBookProcessor` and the auction
functions: the dataframe columns `timestamp`, `order_number`, `mp_quantity`,
`price`, `bid_or_ask`, `change_reason` and `bestprice`. -/
structure Event where
  ts : Nat
  order : Nat
  qty : Int
  price : Nat
  side : Nat
  reason : Nat
  bestprice : Nat
deriving DecidableEq, Repr

/-! ## Order book reconstruction (`OrderBookProcessor`, data_loader.py 185-239)

`build_order_history` groups one side's events by `order_number`, pivots each
order's stream to a (timestamp x price) table of posted quantities, subtracts
the row-shifted table (`shift(1)`, the order's previous posted state) after
`fillna(0)`, giving per-order signed quantity changes.  The `groupby.apply`
concatenation takes the union of all orders' price columns and `fillna(0)`
fills the union, so every order's delta table is dense over all prices.
`build_mbp` then sums the per-order tables with `add(fill_value=0)` (aligning
rows on the union of timestamps) and applies `sort_index(axis=1)` followed by
`expanding().sum()`, the running total down the time-sorted row index. -/

/-- Group keys of `bo2.groupby("order_number")`: the distinct order numbers. -/
def orderIds (bo2 : List Event) : List Nat :=
  (bo2.map (fun e => e.order)).dedup

/-- One group of `bo2.groupby("order_number")`: the order's events in stream
order (groupby preserves the within-group row order). -/
def orderEvents (bo2 : List Event) (o : Nat) : List Event :=
  bo2.filter (fun e => e.order == o)

/-- Cell of the pivoted `current` table of one order after `fillna(0)`: row
`k` (the order's k-th event), column `p`.  The pivot puts the event's
`mp_quantity` in the column of its own `price`; every other column of the
union is filled with zero.  (pandas sorts the pivot's row index by timestamp;
all value-level theorems below assume per-order time-ordered input, under
which the sorted order and the stream order coincide.) -/
def curCell (evs : List Event) (k : Nat) (p : Nat) : Int :=
  match evs[k]? with
  | some e => if e.price = p then e.qty else 0
  | none => 0

/-- Cell of the `shift(1)` table after `fillna(0)`: the previous row of the
pivot, zero for the order's first event. -/
def prevCell (evs : List Event) (k : Nat) (p : Nat) : Int :=
  if k = 0 then 0 else curCell evs (k - 1) p

/-- Cell of `order_history = current - prev` for one order. -/
def deltaCell (evs : List Event) (k : Nat) (p : Nat) : Int :=
  curCell evs k p - prevCell evs k p

/-- Value of one order's delta table at row label `s` (a timestamp) and column
`p`, or `none` when the order has no row labelled `s` (the label alignment of
`DataFrame.add`). -/
def orderRow (bo2 : List Event) (o : Nat) (s : Nat) (p : Nat) : Option Int :=
  match (orderEvents bo2 o).findIdx? (fun e => e.ts == s) with
  | some k => some (deltaCell (orderEvents bo2 o) k p)
  | none => none

/-- Row labels of the summed delta table: the union of all orders' event
timestamps (each label once). -/
def sideTimestamps (bo2 : List Event) : List Nat :=
  (bo2.map (fun e => e.ts)).dedup

/-- Cell of the summed delta table `mbp` before `expanding().sum()`: the sum
over all orders of their row at label `s` and column `p`, where an order
lacking the row contributes the `fill_value` zero. -/
def rowDelta (bo2 : List Event) (s : Nat) (p : Nat) : Int :=
  ((orderIds bo2).map (fun o => (orderRow bo2 o s p).getD 0)).sum

/-- Cell of the accumulated depth matrix `mbp` after `expanding().sum()`: the
running total of `rowDelta` over all row labels up to and including `t` (the
row index is sorted ascending by the alignment, so the positional prefix of
row `t` is exactly the labels that are at most `t`). -/
def mbpCell (bo2 : List Event) (t : Nat) (p : Nat) : Int :=
  (((sideTimestamps bo2).filter (fun s => s ≤ t)).map (fun s => rowDelta bo2 s p)).sum

/-- Column labels of `mbp`: the distinct prices of the side's events. -/
def prices (bo2 : List Event) : List Nat :=
  (bo2.map (fun e => e.price)).dedup

/-- Insert into an ascending list of naturals, keeping it ascending. -/
def insertAsc (p : Nat) : List Nat → List Nat
  | [] => [p]
  | q :: qs => if p ≤ q then p :: q :: qs else q :: insertAsc p qs

/-- Sort a list of naturals ascending (the effect of `sort_index(axis=1)`). -/
def sortAsc (l : List Nat) : List Nat :=
  l.foldr insertAsc []

/-- Price columns in ascending order, as laid out by `sort_index(axis=1)`. -/
def sortedPrices (bo2 : List Event) : List Nat :=
  sortAsc (prices bo2)

/-- Best bid price (data_loader.py 215-217): every nonzero cell of the depth
row is overwritten with 1 (`best_price[best_price != 0] = 1`), multiplied by
its column's price label, and the row maximum is taken.  pandas `max` of an
all-numeric row returns a number, so an all-zero row yields the numeric 0. -/
def bestBidPrice (bo2 : List Event) (t : Nat) : Nat :=
  (((prices bo2).map (fun p => if mbpCell bo2 t p ≠ 0 then p else 0)).foldr max 0)

/-- Best ask price (data_loader.py 218-221): nonzero cells become 1, zeros are
replaced by NaN (`replace(0, np.nan)`), the result is multiplied by the price
labels and the row minimum is taken skipping NaN; an all-NaN row yields NaN,
modelled as `none`. -/
def bestAskPrice (bo2 : List Event) (t : Nat) : Option Nat :=
  ((prices bo2).filter (fun p => decide (mbpCell bo2 t p ≠ 0))).min?

/-- Best bid size (data_loader.py 223-226): zero cells of the depth row are
masked to NaN, the row is forward-filled along the ascending price columns and
the last column is taken, i.e. the value of the largest price column whose
cell is nonzero; NaN (`none`) when every cell of the row is zero. -/
def bestBidSize (bo2 : List Event) (t : Nat) : Option Int :=
  (((sortedPrices bo2).filter (fun p => decide (mbpCell bo2 t p ≠ 0))).getLast?).map
    (fun p => mbpCell bo2 t p)

/-- Best ask size (data_loader.py 223-224, 227-228): zero cells are masked to
NaN, the row is backward-filled and the first column is taken, i.e. the value
of the smallest price column whose cell is nonzero. -/
def bestAskSize (bo2 : List Event) (t : Nat) : Option Int :=
  (((sortedPrices bo2).filter (fun p => decide (mbpCell bo2 t p ≠ 0))).head?).map
    (fun p => mbpCell bo2 t p)

/-- Rows of one side of the book as selected by `process`
(`self.clean[self.clean["bid_or_ask"] == s]`); rows whose side tag is neither
1 nor 2 match no side. -/
def sideEvents (df : List Event) (s : Nat) : List Event :=
  df.filter (fun e => e.side == s)

/-- Error cases surfaced by the dataframe pipeline. -/
inductive PrepError
  | emptyInput
  | noTickerData
  | noFilteredData
  | dupPivot
deriving DecidableEq, Repr

/-- The pivot of one order's stream raises `ValueError` exactly when some
(timestamp, price) pair occurs twice in the stream (pandas: "Index contains
duplicate entries, cannot reshape"); rows at a repeated timestamp but distinct
prices reshape without error. -/
def pivotOk (evs : List Event) : Bool :=
  decide ((evs.map (fun e => (e.ts, e.price))).Nodup)

/-- `build_order_history` as a fallible computation: it propagates the pivot's
reshape error and otherwise succeeds (the resulting per-order delta tables are
read through `deltaCell`/`orderRow` above). -/
def buildOrderHistoryE (bo2 : List Event) : Except PrepError Unit :=
  if (orderIds bo2).all (fun o => pivotOk (orderEvents bo2 o)) then
    Except.ok ()
  else
    Except.error PrepError.dupPivot

/-- `OrderBookProcessor.process`: reconstruct the bid side then the ask side,
propagating any reshape error. -/
def processE (df : List Event) : Except PrepError Unit :=
  match buildOrderHistoryE (sideEvents df 1) with
  | Except.error err => Except.error err
  | Except.ok _ => buildOrderHistoryE (sideEvents df 2)

/-! ## Auction price extraction (data_loader.py 297-389)

`find_morning_matching_price` and `find_closing_matching_price` restrict one
day's stream to a fixed clock-time window, pick the most frequent timestamp
(`value_counts().idxmax()`), and take the price of the first row at that
timestamp with `change_reason == 3` and nonzero `mp_quantity`, falling back to
the price 0.  `find_bid_ask_prices` reads the `bestprice` column of the last
matching row of each side.  Clock times are seconds of day (`ts % 86400`). -/

/-- Seconds-of-day of an event's timestamp (`df['timestamp'].dt.time`). -/
def tod (e : Event) : Nat :=
  e.ts % 86400

/-- Morning auction window 08:58:00-09:00:00, both ends inclusive
(data_loader.py 307-308). -/
def inMorningWindow (e : Event) : Bool :=
  decide (32280 ≤ tod e ∧ tod e ≤ 32400)

/-- Closing auction window 17:04:00-17:06:00, both ends inclusive
(data_loader.py 335-336). -/
def inClosingWindow (e : Event) : Bool :=
  decide (61440 ≤ tod e ∧ tod e ≤ 61560)

/-- Pre-close quote window 16:59:00-17:00:00, both ends inclusive
(data_loader.py 369-370). -/
def inPrecloseWindow (e : Event) : Bool :=
  decide (61140 ≤ tod e ∧ tod e ≤ 61200)

/-- Number of rows of `m` carrying timestamp `t` (one entry of
`value_counts`). -/
def countTs (m : List Event) (t : Nat) : Nat :=
  (m.filter (fun e => e.ts == t)).length

/-- Model of `m['timestamp'].value_counts().idxmax()` on a nonempty frame: a
timestamp of `m` with maximal multiplicity.  Among several timestamps of equal
maximal multiplicity the scan below keeps the first occurrence in row order;
pandas leaves that tie order to hash-table iteration and an unstable sort, so
only the maximality of the result is relied on by the theorems below. -/
def mostFrequentTs (m : List Event) : Nat :=
  (m.map (fun e => e.ts)).foldl
    (fun best t => if countTs m best < countTs m t then t else best)
    ((m.map (fun e => e.ts)).headD 0)

/-- Filter of `find_morning_matching_price` (data_loader.py 315-317): rows of
the window at timestamp `t` flagged as trade/match (`change_reason == 3`) with
nonzero posted quantity. -/
def matchingTrades (w : List Event) (t : Nat) : List Event :=
  w.filter (fun e => decide (e.ts = t ∧ e.reason = 3 ∧ e.qty ≠ 0))

/-- `find_morning_matching_price` (data_loader.py 297-323).  Returns
`(none, 0)` (pandas `(pd.NaT, 0)`) on an empty window; otherwise the most
frequent timestamp together with the price of the first qualifying trade row,
or the price 0 when no row qualifies. -/
def find_morning_matching_price (df : List Event) : Option Nat × Nat :=
  let w := df.filter inMorningWindow
  if w.isEmpty then (none, 0)
  else
    let t := mostFrequentTs w
    match (matchingTrades w t).head? with
    | some e => (some t, e.price)
    | none => (some t, 0)

/-- `find_closing_matching_price` (data_loader.py 325-351): identical to the
morning variant over the 17:04:00-17:06:00 window. -/
def find_closing_matching_price (df : List Event) : Option Nat × Nat :=
  let w := df.filter inClosingWindow
  if w.isEmpty then (none, 0)
  else
    let t := mostFrequentTs w
    match (matchingTrades w t).head? with
    | some e => (some t, e.price)
    | none => (some t, 0)

/-- `find_bid_ask_prices` (data_loader.py 353-389).  A null timestamp yields
`(0, 0)` immediately.  For a closing lookup the relevant rows are those of the
fixed pre-close window; otherwise the rows at exactly the given timestamp.  An
empty relevant frame yields `(0, 0)`; each side's quote is the `bestprice` of
its last relevant row, or 0 when the side has no relevant row. -/
def find_bid_ask_prices (df : List Event) (timestamp : Option Nat)
    (is_closing : Bool) : Nat × Nat :=
  match timestamp with
  | none => (0, 0)
  | some t =>
    let relevant := if is_closing then df.filter inPrecloseWindow
      else df.filter (fun e => e.ts == t)
    if relevant.isEmpty then (0, 0)
    else
      let bidDf := relevant.filter (fun e => e.side == 1)
      let askDf := relevant.filter (fun e => e.side == 2)
      (((bidDf.getLast?).map (fun e => e.bestprice)).getD 0,
       ((askDf.getLast?).map (fun e => e.bestprice)).getD 0)

/-! ## Generic filtering (`filter_data`, data_loader.py 114-183)

Only the columns `stockcode` and `timestamp` take part in the filtering; the
required-column check and timestamp parsing are handled by the record type.
The `interval` argument is one of the five keys of the dictionary in
`interval_to_relativedelta`; its `relativedelta` is modelled by a length in
seconds (day and week lengths are exact, month and year lengths are nominal -
no claim depends on calendar arithmetic). -/

/-- One row of the filtered dataframe: the `stockcode` and `timestamp`
columns. -/
structure Row where
  stockcode : Nat
  ts : Nat
deriving DecidableEq, Repr

/-- The five valid interval keys of `interval_to_relativedelta`
(data_loader.py 101-107); any other string raises `ValueError`. -/
inductive Interval
  | d1
  | wk1
  | mo1
  | mo3
  | y1
deriving DecidableEq, Repr

/-- Seconds spanned by each interval's `relativedelta`. -/
def intervalSeconds : Interval → Nat
  | .d1 => 86400
  | .wk1 => 604800
  | .mo1 => 2592000
  | .mo3 => 7776000
  | .y1 => 31536000

/-- Ascending insertion by (stockcode, timestamp), used to model
`sort_values(['stockcode', 'timestamp'])`. -/
def insertRow (a : Row) : List Row → List Row
  | [] => [a]
  | b :: l =>
    if a.stockcode < b.stockcode ∨ (a.stockcode = b.stockcode ∧ a.ts ≤ b.ts) then
      a :: b :: l
    else
      b :: insertRow a l

/-- Sort rows by (stockcode, timestamp) ascending. -/
def sortRows (l : List Row) : List Row :=
  l.foldr insertRow []

/-- `filter_data` (data_loader.py 114-183).  The stages run in source order:
empty-input check, ticker filter (with its own emptiness error), inclusive
`start_time` filter, inclusive `end_time` filter, then the interval window
`[start, start + delta)` over the already-filtered rows, where `start`
defaults to the minimum remaining timestamp when `start_time` was not
supplied; a final emptiness check precedes the sort. -/
def filter_data (rows : List Row) (tickers : Option (List Nat))
    (start_time : Option Nat) (end_time : Option Nat)
    (interval : Option Interval) : Except PrepError (List Row) :=
  if rows.isEmpty then Except.error PrepError.emptyInput
  else
    let f1 := match tickers with
      | none => rows
      | some tks => rows.filter (fun r => tks.contains r.stockcode)
    if tickers.isSome ∧ f1.isEmpty then Except.error PrepError.noTickerData
    else
      let f2 := match start_time with
        | none => f1
        | some s => f1.filter (fun r => decide (s ≤ r.ts))
      let f3 := match end_time with
        | none => f2
        | some e => f2.filter (fun r => decide (r.ts ≤ e))
      let f4 := match interval with
        | none => f3
        | some iv =>
          let s := match start_time with
            | some s => s
            | none => ((f3.map Row.ts).min?).getD 0
          f3.filter (fun r => decide (s ≤ r.ts ∧ r.ts < s + intervalSeconds iv))
      if f4.isEmpty then Except.error PrepError.noFilteredData
      else Except.ok (sortRows f4)

/-! ## Specification-side definitions

These re-state, in the specification's own words, the quantities the claims
compare against the code: the depth invariant's right-hand side and the
best-quote definitions.  They are deliberately written from the spec, to be
proved equal to (or different from) the code-derived definitions above. -/

/-- Timestamp of the k-th event of a stream (0 when out of range; only used
under an in-range condition). -/
def eventTs (evs : List Event) (k : Nat) : Nat :=
  ((evs[k]?).map (fun e => e.ts)).getD 0

/-- The spec's `PriceLevelDelta.signed_quantity_change` of an order's k-th
event at price `p`: the new posted quantity at the new price minus the
quantity the same order previously posted (removed from its old price on a
price move); the prior quantity is zero for the order's first event. -/
def specSignedChange (evs : List Event) (k : Nat) (p : Nat) : Int :=
  (match evs[k]? with
   | some e => if e.price = p then e.qty else 0
   | none => 0) -
  (match k with
   | 0 => 0
   | k2 + 1 =>
     match evs[k2]? with
     | some e => if e.price = p then e.qty else 0
     | none => 0)

/-- The spec's depth invariant right-hand side: the sum, over all orders and
all of their events with timestamp at most `t`, of the signed quantity change
each event contributes at price `p`. -/
def specDepth (bo2 : List Event) (t : Nat) (p : Nat) : Int :=
  ((orderIds bo2).map (fun o =>
    (((List.range (orderEvents bo2 o).length).filter
        (fun k => decide (eventTs (orderEvents bo2 o) k ≤ t))).map
      (fun k => specSignedChange (orderEvents bo2 o) k p)).sum)).sum

/-- The spec's best bid: the maximum price with strictly positive depth,
absent (`none`) when no price has strictly positive depth. -/
def specBestBidPrice (bo2 : List Event) (t : Nat) : Option Nat :=
  ((prices bo2).filter (fun p => decide (0 < mbpCell bo2 t p))).max?

/-- The spec's best ask: the minimum price with strictly positive depth,
absent (`none`) when no price has strictly positive depth. -/
def specBestAskPrice (bo2 : List Event) (t : Nat) : Option Nat :=
  ((prices bo2).filter (fun p => decide (0 < mbpCell bo2 t p))).min?

/-- Input discipline assumed by the reconstruction theorems, taken from the
spec's contract (events are a time-ordered sequence; within each order's
stream the timestamps strictly increase).  It also makes the pandas pivot's
time-sorted row index coincide with the stream order. -/
def TimeOrdered (bo2 : List Event) : Prop :=
  bo2.Pairwise (fun a b => a.order = b.order → a.ts < b.ts)

instance (bo2 : List Event) : Decidable (TimeOrdered bo2) := by
  unfold TimeOrdered
  infer_instance

/-- The net contribution of a single order to the accumulated depth cell at
(t, p): the part of the running total built from that order's delta table. -/
def orderContrib (bo2 : List Event) (o t p : Nat) : Int :=
  (((sideTimestamps bo2).filter (fun s => s ≤ t)).map
    (fun s => (orderRow bo2 o s p).getD 0)).sum

/-! ## General list lemmas -/

/-- Interchange of a double list sum. -/
lemma sum_exchange {α β : Type} (xs : List α) (ys : List β) (f : α → β → Int) :
    (xs.map (fun x => (ys.map (fun y => f x y)).sum)).sum
      = (ys.map (fun y => (xs.map (fun x => f x y)).sum)).sum := by
  induction xs with
  | nil => simp
  | cons x xs ih =>
      simp only [List.map_cons, List.sum_cons, ih, List.sum_map_add]

/-- A sum over a duplicate-free index list equals the sum over a duplicate-free
sub-list outside of which the summand vanishes. -/
lemma sum_map_eq_of_support (g : Nat → Int) :
    ∀ (L M : List Nat), L.Nodup → M.Nodup → (∀ s ∈ M, s ∈ L) →
      (∀ s ∈ L, s ∉ M → g s = 0) → (L.map g).sum = (M.map g).sum := by
  intro L
  induction L with
  | nil =>
      intro M _ _ hsub _
      cases M with
      | nil => rfl
      | cons a M => exact absurd (hsub a (by simp)) (by simp)
  | cons a L ih =>
      intro M hL hM hsub hz
      by_cases ha : a ∈ M
      · have hperm : M.Perm (a :: M.erase a) := List.perm_cons_erase ha
        have hsum : (M.map g).sum = g a + ((M.erase a).map g).sum := by
          have h2 := (hperm.map g).sum_eq
          simpa using h2
        rw [List.map_cons, List.sum_cons, hsum]
        have hrec := ih (M.erase a) hL.of_cons (hM.erase a) ?_ ?_
        · rw [hrec]
        · intro s hs
          have hsM := hM.mem_erase_iff.mp hs
          rcases List.mem_cons.mp (hsub s hsM.2) with h1 | h1
          · exact absurd h1 hsM.1
          · exact h1
        · intro s hsL hsnot
          by_cases hsM : s ∈ M
          · have hsa : s ≠ a := by
              intro h
              subst h
              exact (List.nodup_cons.mp hL).1 hsL
            exact absurd (hM.mem_erase_iff.mpr ⟨hsa, hsM⟩) hsnot
          · exact hz s (List.mem_cons_of_mem a hsL) hsM
      · have hga : g a = 0 := hz a (List.mem_cons_self a L) ha
        rw [List.map_cons, List.sum_cons, hga, zero_add]
        refine ih M hL.of_cons hM ?_ ?_
        · intro s hs
          rcases List.mem_cons.mp (hsub s hs) with h1 | h1
          · subst h1
            exact absurd hs ha
          · exact h1
        · intro s hsL hsnot
          exact hz s (List.mem_cons_of_mem a hsL) hsnot

/-- Every element is bounded by the fold of `max` with base 0. -/
lemma le_foldr_max (l : List Nat) : ∀ x ∈ l, x ≤ l.foldr max 0 := by
  induction l with
  | nil =>
      intro x hx
      simp at hx
  | cons a l ih =>
      intro x hx
      rcases List.mem_cons.mp hx with h | h
      · subst h
        exact le_max_left _ _
      · exact le_trans (ih x h) (le_max_right _ _)

/-- The fold of `max` with base 0 over a nonempty list is one of its
elements. -/
lemma foldr_max_mem : ∀ (l : List Nat), l ≠ [] → l.foldr max 0 ∈ l := by
  intro l
  induction l with
  | nil =>
      intro h
      exact absurd rfl h
  | cons a l ih =>
      intro _
      cases l with
      | nil => simp
      | cons b l2 =>
          rcases max_choice a ((b :: l2).foldr max 0) with h1 | h1 <;>
            rw [List.foldr_cons, h1]
          · exact List.mem_cons_self _ _
          · exact List.mem_cons_of_mem a (ih (by simp))

/-- Folding `max` over an if-then-else indicator equals folding it over the
filtered list. -/
lemma foldr_max_indicator (ps : List Nat) (c : Nat → Int) :
    ((ps.map (fun p => if c p ≠ 0 then p else 0)).foldr max 0)
      = ((ps.filter (fun p => decide (c p ≠ 0))).foldr max 0) := by
  induction ps with
  | nil => rfl
  | cons a ps ih =>
      rw [List.map_cons, List.foldr_cons, List.filter_cons]
      by_cases h : c a ≠ 0
      · rw [if_pos h, if_pos (by simpa using h), List.foldr_cons, ih]
      · rw [if_neg h, if_neg (by simpa using h), ih, Nat.zero_max]

/-- In a list sorted by `≤`, the last element dominates all elements. -/
lemma sorted_getLast_ge :
    ∀ (l : List Nat), l.Pairwise (· ≤ ·) → ∀ a, l.getLast? = some a →
      ∀ x ∈ l, x ≤ a := by
  intro l
  induction l with
  | nil =>
      intro _ a ha
      simp at ha
  | cons b l ih =>
      intro hs a ha x hx
      cases l with
      | nil =>
          simp at ha hx
          omega
      | cons c l2 =>
          rw [List.getLast?_cons_cons] at ha
          have hmem : a ∈ c :: l2 := by
            have hne : (c :: l2) ≠ [] := by simp
            rw [List.getLast?_eq_getLast _ hne] at ha
            have h2 := List.getLast_mem hne
            rwa [Option.some_inj.mp ha] at h2
          rcases List.mem_cons.mp hx with h | h
          · subst h
            exact List.rel_of_pairwise_cons hs hmem
          · exact ih (List.pairwise_cons.mp hs).2 a ha x h

/-- In a list sorted by `≤`, the head is dominated by all elements. -/
lemma sorted_head_le (l : List Nat) (hs : l.Pairwise (· ≤ ·)) (a : Nat)
    (ha : l.head? = some a) : ∀ x ∈ l, a ≤ x := by
  cases l with
  | nil => simp at ha
  | cons b l =>
      have hab : b = a := by simpa using ha
      subst hab
      intro x hx
      rcases List.mem_cons.mp hx with h | h
      · subst h
        exact le_refl _
      · exact List.rel_of_pairwise_cons hs h

/-- Inserting into an ascending list is a permutation of consing. -/
lemma insertAsc_perm (p : Nat) : ∀ (l : List Nat), (insertAsc p l).Perm (p :: l) := by
  intro l
  induction l with
  | nil => simp [insertAsc]
  | cons q qs ih =>
      rw [insertAsc]
      by_cases h : p ≤ q
      · simp [h]
      · simp only [h, if_false]
        exact (ih.cons q).trans (List.Perm.swap p q qs)

/-- `sortAsc` permutes its input. -/
lemma sortAsc_perm : ∀ (l : List Nat), (sortAsc l).Perm l := by
  intro l
  induction l with
  | nil => simp [sortAsc]
  | cons a l ih =>
      have h1 : sortAsc (a :: l) = insertAsc a (sortAsc l) := rfl
      rw [h1]
      exact (insertAsc_perm a (sortAsc l)).trans (ih.cons a)

/-- Inserting into an ascending list keeps it ascending. -/
lemma insertAsc_sorted (p : Nat) :
    ∀ (l : List Nat), l.Pairwise (· ≤ ·) → (insertAsc p l).Pairwise (· ≤ ·) := by
  intro l
  induction l with
  | nil =>
      intro _
      simp [insertAsc]
  | cons q qs ih =>
      intro hs
      rw [insertAsc]
      by_cases h : p ≤ q
      · simp only [h, if_true]
        refine List.pairwise_cons.mpr ⟨?_, hs⟩
        intro x hx
        rcases List.mem_cons.mp hx with h1 | h1
        · subst h1
          exact h
        · exact le_trans h (List.rel_of_pairwise_cons hs h1)
      · simp only [h, if_false]
        have hqp : q ≤ p := Nat.le_of_not_le h
        refine List.pairwise_cons.mpr ⟨?_, ih (List.pairwise_cons.mp hs).2⟩
        intro x hx
        rcases List.mem_cons.mp ((insertAsc_perm p qs).mem_iff.mp hx) with h1 | h1
        · subst h1
          exact hqp
        · exact List.rel_of_pairwise_cons hs h1

/-- `sortAsc` sorts ascending. -/
lemma sortAsc_sorted : ∀ (l : List Nat), (sortAsc l).Pairwise (· ≤ ·) := by
  intro l
  induction l with
  | nil => simp [sortAsc]
  | cons a l ih => exact insertAsc_sorted a (sortAsc l) ih

/-- Inserting a row is a permutation of consing it. -/
lemma insertRow_perm (a : Row) : ∀ (l : List Row), (insertRow a l).Perm (a :: l) := by
  intro l
  induction l with
  | nil => simp [insertRow]
  | cons b l ih =>
      rw [insertRow]
      by_cases h : a.stockcode < b.stockcode ∨ (a.stockcode = b.stockcode ∧ a.ts ≤ b.ts)
      · simp [h]
      · simp only [h, if_false]
        exact (ih.cons b).trans (List.Perm.swap a b l)

/-- `sortRows` permutes its input. -/
lemma sortRows_perm : ∀ (l : List Row), (sortRows l).Perm l := by
  intro l
  induction l with
  | nil => simp [sortRows]
  | cons a l ih =>
      have h1 : sortRows (a :: l) = insertRow a (sortRows l) := rfl
      rw [h1]
      exact (insertRow_perm a (sortRows l)).trans (ih.cons a)

/-- On a stream whose timestamps are duplicate-free, `findIdx?` searching for
the k-th element's timestamp returns k (offset by the accumulator). -/
lemma findIdx?_ts (P : Event → Nat) :
    ∀ (evs : List Event), (evs.map P).Nodup →
      ∀ (i k : Nat) (e : Event), evs[k]? = some e →
        List.findIdx? (fun x => P x == P e) evs i = some (i + k) := by
  intro evs
  induction evs with
  | nil =>
      intro _ i k e h
      simp at h
  | cons a l ih =>
      intro hnd i k e h
      have hnd2 : (a :: l).map P = P a :: l.map P := rfl
      rw [hnd2] at hnd
      cases k with
      | zero =>
          have hae : a = e := by simpa using h
          subst hae
          rw [List.findIdx?_cons]
          simp
      | succ k =>
          have h2 : l[k]? = some e := by simpa using h
          have he : e ∈ l := List.getElem?_mem h2
          have hPa : P a ∉ l.map P := (List.nodup_cons.mp hnd).1
          have hne : (P a == P e) = false := by
            simp only [beq_eq_false_iff_ne, ne_eq]
            intro hcontr
            exact hPa (hcontr ▸ List.mem_map_of_mem P he)
          rw [List.findIdx?_cons, hne]
          simp only [Bool.false_eq_true, if_false]
          rw [ih (List.nodup_cons.mp hnd).2 (i + 1) k e h2]
          congr 1
          omega

/-- The last element of a list is a member. -/
lemma mem_of_getLast? {α : Type} {l : List α} {a : α} (h : l.getLast? = some a) :
    a ∈ l := by
  have hne : l ≠ [] := by
    intro hcontr
    rw [hcontr] at h
    simp at h
  rw [List.getLast?_eq_getLast _ hne] at h
  have hmem := List.getLast_mem hne
  rwa [Option.some_inj.mp h] at hmem

/-- Indices in an enumeration are in range. -/
lemma enum_fst_lt {α : Type} {l : List α} {ke : Nat × α} (h : ke ∈ l.enum) :
    ke.1 < l.length := by
  have hget := List.mem_enum_iff_getElem?.mp h
  exact (List.getElem?_eq_some.mp hget).1

/-! ## Core order-book lemmas -/

/-- Within one order's stream, timestamps strictly increase. -/
lemma timeOrdered_perOrder (bo2 : List Event) (o : Nat) (h : TimeOrdered bo2) :
    ((orderEvents bo2 o).map (fun e => e.ts)).Pairwise (· < ·) := by
  rw [List.pairwise_map]
  have h1 := (show bo2.Pairwise (fun a b => a.order = b.order → a.ts < b.ts) from h).filter
    (fun e => e.order == o)
  refine h1.imp_of_mem ?_
  intro a b ha hb hr
  have ha2 : a.order = o := by simpa using (List.mem_filter.mp ha).2
  have hb2 : b.order = o := by simpa using (List.mem_filter.mp hb).2
  exact hr (ha2.trans hb2.symm)

/-- Within one order's stream, timestamps are duplicate-free. -/
lemma timeOrdered_nodup (bo2 : List Event) (o : Nat) (h : TimeOrdered bo2) :
    ((orderEvents bo2 o).map (fun e => e.ts)).Nodup :=
  (timeOrdered_perOrder bo2 o h).imp (fun hlt => Nat.ne_of_lt hlt)

/-- The accumulated depth cell is the sum of the per-order contributions. -/
lemma mbpCell_eq_sum_orders (bo2 : List Event) (t p : Nat) :
    mbpCell bo2 t p = ((orderIds bo2).map (fun o => orderContrib bo2 o t p)).sum := by
  unfold mbpCell rowDelta orderContrib
  exact sum_exchange ((sideTimestamps bo2).filter (fun s => s ≤ t)) (orderIds bo2)
    (fun s o => (orderRow bo2 o s p).getD 0)

/-- The delta-table row of an order at its k-th event's timestamp holds the
k-th delta. -/
lemma orderRow_at_event (bo2 : List Event) (o : Nat) (p : Nat)
    (hnd : ((orderEvents bo2 o).map (fun e => e.ts)).Nodup)
    (k : Nat) (e : Event) (h : (orderEvents bo2 o)[k]? = some e) :
    orderRow bo2 o e.ts p = some (deltaCell (orderEvents bo2 o) k p) := by
  unfold orderRow
  have h2 := findIdx?_ts (fun x => x.ts) (orderEvents bo2 o) hnd 0 k e h
  rw [Nat.zero_add] at h2
  rw [h2]

/-- An order's delta table has no row at a timestamp that is not one of the
order's event timestamps. -/
lemma orderRow_none (bo2 : List Event) (o s p : Nat)
    (h : ∀ e ∈ orderEvents bo2 o, e.ts ≠ s) : orderRow bo2 o s p = none := by
  unfold orderRow
  have h2 : List.findIdx? (fun e => e.ts == s) (orderEvents bo2 o) = none := by
    rw [List.findIdx?_eq_none_iff]
    intro x hx
    simpa using h x hx
  rw [h2]

/-- An order's contribution to the depth cell at (t, p) is the sum of its
event deltas with timestamp at most t. -/
lemma orderContrib_eq_enum (bo2 : List Event) (o t p : Nat) (H : TimeOrdered bo2) :
    orderContrib bo2 o t p
      = (((orderEvents bo2 o).enum.filter (fun ke => decide (ke.2.ts ≤ t))).map
          (fun ke => deltaCell (orderEvents bo2 o) ke.1 p)).sum := by
  have hnd := timeOrdered_nodup bo2 o H
  unfold orderContrib
  have hstep1 :
      (((sideTimestamps bo2).filter (fun s => s ≤ t)).map
        (fun s => (orderRow bo2 o s p).getD 0)).sum
        = ((((orderEvents bo2 o).map (fun e => e.ts)).filter (fun s => s ≤ t)).map
            (fun s => (orderRow bo2 o s p).getD 0)).sum := by
    refine sum_map_eq_of_support _ _ _ ?_ ?_ ?_ ?_
    · exact (List.nodup_dedup _).filter _
    · exact hnd.filter _
    · intro s hs
      rcases List.mem_filter.mp hs with ⟨hs1, hs2⟩
      refine List.mem_filter.mpr ⟨?_, hs2⟩
      rcases List.mem_map.mp hs1 with ⟨e, he, hse⟩
      have heb : e ∈ bo2 := (List.filter_sublist bo2).subset he
      exact List.mem_dedup.mpr (hse ▸ List.mem_map_of_mem (fun e => e.ts) heb)
    · intro s hsL hsnot
      have hnone : ∀ e ∈ orderEvents bo2 o, e.ts ≠ s := by
        intro e he hcontr
        exact hsnot (List.mem_filter.mpr
          ⟨hcontr ▸ List.mem_map_of_mem (fun e => e.ts) he, (List.mem_filter.mp hsL).2⟩)
      rw [orderRow_none bo2 o s p hnone]
      rfl
  have hstep2 : ((orderEvents bo2 o).map (fun e => e.ts)).filter (fun s => s ≤ t)
      = ((orderEvents bo2 o).enum.filter (fun ke => decide (ke.2.ts ≤ t))).map
          (fun ke => ke.2.ts) := by
    conv_lhs => rw [← List.enum_map_snd (orderEvents bo2 o), List.map_map]
    rw [List.filter_map]
    rfl
  rw [hstep1, hstep2, List.map_map]
  refine congrArg List.sum (List.map_congr_left ?_)
  intro ke hke
  have hke2 : ke ∈ (orderEvents bo2 o).enum := (List.filter_sublist _).subset hke
  have hget : (orderEvents bo2 o)[ke.1]? = some ke.2 :=
    List.mem_enum_iff_getElem?.mp hke2
  have hrow := orderRow_at_event bo2 o p hnd ke.1 ke.2 hget
  simp only [Function.comp]
  rw [hrow]
  rfl

/-- Appending an event does not change earlier cells of the pivot. -/
lemma curCell_append (l : List Event) (e : Event) (k : Nat) (hk : k < l.length)
    (q : Nat) : curCell (l ++ [e]) k q = curCell l k q := by
  unfold curCell
  rw [List.getElem?_append]
  simp [hk]

/-- Appending an event does not change earlier deltas. -/
lemma deltaCell_append (l : List Event) (e : Event) (k : Nat) (hk : k < l.length)
    (p : Nat) : deltaCell (l ++ [e]) k p = deltaCell l k p := by
  unfold deltaCell prevCell
  rw [curCell_append l e k hk p]
  by_cases h0 : k = 0
  · rw [if_pos h0, if_pos h0]
  · rw [if_neg h0, if_neg h0, curCell_append l e (k - 1) (by omega) p]

/-- Telescoping: the sum of all deltas of one order is its final posted
state. -/
lemma sum_enum_delta (p : Nat) :
    ∀ (evs : List Event),
      (evs.enum.map (fun ke => deltaCell evs ke.1 p)).sum
        = curCell evs (evs.length - 1) p := by
  intro evs
  induction evs using List.reverseRecOn with
  | nil => simp [curCell]
  | append_singleton l e ih =>
      have henum : (l ++ [e]).enum = l.enum ++ [(l.length, e)] := by
        rw [List.enum_append]
        rfl
      rw [henum, List.map_append, List.sum_append]
      have hdelta : ∀ ke ∈ l.enum,
          deltaCell (l ++ [e]) ke.1 p = deltaCell l ke.1 p := by
        intro ke hke
        exact deltaCell_append l e ke.1 (enum_fst_lt hke) p
      rw [List.map_congr_left hdelta, ih]
      have hlen : (l ++ [e]).length - 1 = l.length := by simp
      rw [hlen]
      have hcurlast : curCell (l ++ [e]) l.length p
          = (if e.price = p then e.qty else 0) := by
        unfold curCell
        rw [List.getElem?_concat_length]
      cases l with
      | nil => simp [deltaCell, prevCell, curCell]
      | cons a l2 =>
          have hne : (a :: l2).length ≠ 0 := by simp
          simp only [List.map_cons, List.sum_cons, List.map_nil, List.sum_nil, add_zero]
          unfold deltaCell prevCell
          rw [if_neg hne, hcurlast,
            curCell_append (a :: l2) e ((a :: l2).length - 1) (by omega) p]
          omega

/-- Telescoping with a cutoff: on a strictly time-ordered stream, the sum of
the deltas with timestamp at most t is the posted state at the last event not
after t. -/
lemma filtered_sum_delta (p t : Nat) :
    ∀ (evs : List Event), ((evs.map (fun e => e.ts)).Pairwise (· < ·)) →
      ((evs.enum.filter (fun ke => decide (ke.2.ts ≤ t))).map
        (fun ke => deltaCell evs ke.1 p)).sum
        = (match (evs.enum.filter (fun ke => decide (ke.2.ts ≤ t))).getLast? with
           | some ke => curCell evs ke.1 p
           | none => 0) := by
  intro evs
  induction evs using List.reverseRecOn with
  | nil =>
      intro _
      simp
  | append_singleton l e ih =>
      intro hs
      have henum : (l ++ [e]).enum = l.enum ++ [(l.length, e)] := by
        rw [List.enum_append]
        rfl
      by_cases het : e.ts ≤ t
      · have hall : ∀ ke ∈ (l ++ [e]).enum,
            (fun ke => decide (ke.2.ts ≤ t)) ke = true := by
          intro ke hke
          have hget : (l ++ [e])[ke.1]? = some ke.2 :=
            List.mem_enum_iff_getElem?.mp hke
          have hmem : ke.2 ∈ l ++ [e] := List.getElem?_mem hget
          have hlast : ((l ++ [e]).map (fun e => e.ts)).getLast? = some e.ts := by
            rw [List.map_append]
            simp
          have hle : ((l ++ [e]).map (fun e => e.ts)).Pairwise (· ≤ ·) :=
            hs.imp (fun hlt => Nat.le_of_lt hlt)
          have hts : ke.2.ts ≤ e.ts :=
            sorted_getLast_ge _ hle e.ts hlast ke.2.ts (List.mem_map_of_mem _ hmem)
          simp only [decide_eq_true_eq]
          omega
        rw [List.filter_eq_self.mpr hall, sum_enum_delta]
        have hlast2 : (l ++ [e]).enum.getLast? = some (l.length, e) := by
          rw [henum]
          simp
        rw [hlast2]
        have hlen : (l ++ [e]).length - 1 = l.length := by simp
        rw [hlen]
      · rw [henum, List.filter_append]
        have hdrop : List.filter (fun ke => decide (ke.2.ts ≤ t)) [(l.length, e)] = [] := by
          simp [het]
        rw [hdrop, List.append_nil]
        have hdelta : ∀ ke ∈ l.enum.filter (fun ke => decide (ke.2.ts ≤ t)),
            deltaCell (l ++ [e]) ke.1 p = deltaCell l ke.1 p := by
          intro ke hke
          exact deltaCell_append l e ke.1 (enum_fst_lt ((List.filter_sublist _).subset hke)) p
        rw [List.map_congr_left hdelta]
        have hsl : ((l.map (fun e => e.ts)).Pairwise (· < ·)) := by
          refine List.Pairwise.sublist ?_ hs
          exact (List.sublist_append_left l [e]).map _
        rw [ih hsl]
        cases hcase : (l.enum.filter (fun ke => decide (ke.2.ts ≤ t))).getLast? with
        | none => rfl
        | some ke =>
            have hmem := mem_of_getLast? hcase
            have hk : ke.1 < l.length := enum_fst_lt ((List.filter_sublist _).subset hmem)
            exact (curCell_append l e ke.1 hk p).symm

/-- Pivot cells carry posted quantities, hence are nonnegative when all
posted quantities are. -/
lemma curCell_nonneg (bo2 : List Event) (o : Nat) (hq : ∀ e ∈ bo2, 0 ≤ e.qty)
    (k p : Nat) : 0 ≤ curCell (orderEvents bo2 o) k p := by
  cases hget : (orderEvents bo2 o)[k]? with
  | none =>
      have h0 : curCell (orderEvents bo2 o) k p = 0 := by
        unfold curCell
        rw [hget]
      rw [h0]
  | some e =>
      have h0 : curCell (orderEvents bo2 o) k p = if e.price = p then e.qty else 0 := by
        unfold curCell
        rw [hget]
      rw [h0]
      have he : e ∈ orderEvents bo2 o := List.getElem?_mem hget
      have heb : e ∈ bo2 := (List.filter_sublist bo2).subset he
      by_cases hp : e.price = p
      · rw [if_pos hp]
        exact hq e heb
      · rw [if_neg hp]

/-- With nonnegative posted quantities on a time-ordered stream, each order's
contribution to any depth cell is nonnegative. -/
lemma orderContrib_nonneg (bo2 : List Event) (o t p : Nat) (H : TimeOrdered bo2)
    (hq : ∀ e ∈ bo2, 0 ≤ e.qty) : 0 ≤ orderContrib bo2 o t p := by
  rw [orderContrib_eq_enum bo2 o t p H,
    filtered_sum_delta p t _ (timeOrdered_perOrder bo2 o H)]
  cases hcase : ((orderEvents bo2 o).enum.filter
      (fun ke => decide (ke.2.ts ≤ t))).getLast? with
  | none => exact le_refl 0
  | some ke => exact curCell_nonneg bo2 o hq ke.1 p

/-- With nonnegative posted quantities on a time-ordered stream, every
accumulated depth cell is nonnegative. -/
lemma mbpCell_nonneg (bo2 : List Event) (t p : Nat) (H : TimeOrdered bo2)
    (hq : ∀ e ∈ bo2, 0 ≤ e.qty) : 0 ≤ mbpCell bo2 t p := by
  rw [mbpCell_eq_sum_orders]
  refine List.sum_nonneg ?_
  intro x hx
  rcases List.mem_map.mp hx with ⟨o, _, hxo⟩
  rw [← hxo]
  exact orderContrib_nonneg bo2 o t p H hq

/-- The spec's per-event signed change coincides with the code's delta-table
cell. -/
lemma specSignedChange_eq_deltaCell (evs : List Event) (k p : Nat) :
    specSignedChange evs k p = deltaCell evs k p := by
  unfold specSignedChange deltaCell prevCell curCell
  cases k with
  | zero => rfl
  | succ k2 => simp

/-- The accumulated depth cell equals the spec's sum of prior signed
changes. -/
lemma mbpCell_eq_specDepth (bo2 : List Event) (H : TimeOrdered bo2) (t p : Nat) :
    mbpCell bo2 t p = specDepth bo2 t p := by
  rw [mbpCell_eq_sum_orders]
  unfold specDepth
  refine congrArg List.sum (List.map_congr_left ?_)
  intro o _
  rw [orderContrib_eq_enum bo2 o t p H]
  have h1 : List.range (orderEvents bo2 o).length
      = (orderEvents bo2 o).enum.map Prod.fst := (List.enum_map_fst _).symm
  rw [h1, List.filter_map]
  have h2 : List.filter ((fun k => decide (eventTs (orderEvents bo2 o) k ≤ t)) ∘ Prod.fst)
        (orderEvents bo2 o).enum
      = List.filter (fun ke => decide (ke.2.ts ≤ t)) (orderEvents bo2 o).enum := by
    refine List.filter_congr ?_
    intro ke hke
    have hget : (orderEvents bo2 o)[ke.1]? = some ke.2 :=
      List.mem_enum_iff_getElem?.mp hke
    have hts : eventTs (orderEvents bo2 o) ke.1 = ke.2.ts := by
      unfold eventTs
      rw [hget]
      rfl
    simp only [Function.comp]
    rw [hts]
  rw [h2, List.map_map]
  refine (congrArg List.sum (List.map_congr_left ?_)).symm
  intro ke _
  simp only [Function.comp]
  exact specSignedChange_eq_deltaCell (orderEvents bo2 o) ke.1 p

/-- With nonnegative depth cells, the nonzero-cell price columns are exactly
the positive-cell price columns. -/
lemma filter_ne_eq_filter_pos (bo2 : List Event) (t : Nat) (H : TimeOrdered bo2)
    (hq : ∀ e ∈ bo2, 0 ≤ e.qty) :
    (prices bo2).filter (fun p => decide (mbpCell bo2 t p ≠ 0))
      = (prices bo2).filter (fun p => decide (0 < mbpCell bo2 t p)) := by
  refine List.filter_congr ?_
  intro p _
  have h0 := mbpCell_nonneg bo2 t p H hq
  refine decide_eq_decide.mpr ?_
  constructor <;> intro h <;> omega

/-! ## Example inputs used by the witnesses and counterexamples -/

/-- Two bid orders resting at prices 10 and 11. -/
def exBook : List Event :=
  [⟨1, 1, 100, 10, 1, 1, 0⟩, ⟨2, 2, 50, 11, 1, 1, 0⟩]

/-- One order posting 100 at price 10, then fully cancelling. -/
def exCancel : List Event :=
  [⟨1, 1, 100, 10, 1, 1, 0⟩, ⟨3, 1, 0, 10, 1, 1, 0⟩]

/-! ## Claim theorems -/

/-- C1: for every time-ordered event sequence on one side, the accumulated
depth matrix cell at (t, p) equals the sum, over all orders and all events
with timestamp at most t, of the signed quantity change each event
contributes at price p (new posted quantity at the new price minus the
quantity the same order previously posted at its old price; prior quantity
zero for an order's first event). -/
theorem C1_depth_cell_is_sum_of_signed_changes (bo2 : List Event)
    (H : TimeOrdered bo2) (t p : Nat) : mbpCell bo2 t p = specDepth bo2 t p :=
  mbpCell_eq_specDepth bo2 H t p

/-- Witness for C1 on a concrete two-order book. -/
theorem C1_witness :
    TimeOrdered exBook ∧ mbpCell exBook 2 11 = specDepth exBook 2 11 :=
  ⟨by decide, C1_depth_cell_is_sum_of_signed_changes exBook (by decide) 2 11⟩

/-- C4: an order whose stream ends in a posted quantity of zero (a full
cancellation) has zero net contribution to depth at every price from the
cancellation time onward, and the cancellation event's delta removes exactly
the quantity the order previously posted at its price level. -/
theorem C4_full_cancellation_removes_contribution (bo2 : List Event) (o : Nat)
    (H : TimeOrdered bo2) (e : Event)
    (hlast : (orderEvents bo2 o).getLast? = some e) (hq0 : e.qty = 0) :
    (∀ t, e.ts ≤ t → ∀ p, orderContrib bo2 o t p = 0)
    ∧ (∀ p, deltaCell (orderEvents bo2 o) ((orderEvents bo2 o).length - 1) p
        = - prevCell (orderEvents bo2 o) ((orderEvents bo2 o).length - 1) p) := by
  have hget2 : (orderEvents bo2 o)[(orderEvents bo2 o).length - 1]? = some e := by
    rw [← List.getLast?_eq_getElem?]
    exact hlast
  have hcur : ∀ p, curCell (orderEvents bo2 o) ((orderEvents bo2 o).length - 1) p = 0 := by
    intro p
    have h0 : curCell (orderEvents bo2 o) ((orderEvents bo2 o).length - 1) p
        = if e.price = p then e.qty else 0 := by
      unfold curCell
      rw [hget2]
    rw [h0, hq0]
    simp
  refine ⟨?_, ?_⟩
  · intro t ht p
    rw [orderContrib_eq_enum bo2 o t p H,
      filtered_sum_delta p t _ (timeOrdered_perOrder bo2 o H)]
    have hall : ∀ ke ∈ (orderEvents bo2 o).enum,
        (fun ke => decide (ke.2.ts ≤ t)) ke = true := by
      intro ke hke
      have hget := List.mem_enum_iff_getElem?.mp hke
      have hmem : ke.2 ∈ orderEvents bo2 o := List.getElem?_mem hget
      have hle : ((orderEvents bo2 o).map (fun e => e.ts)).Pairwise (· ≤ ·) :=
        (timeOrdered_perOrder bo2 o H).imp (fun hlt => Nat.le_of_lt hlt)
      have hlastts : ((orderEvents bo2 o).map (fun e => e.ts)).getLast? = some e.ts := by
        rw [List.getLast?_eq_getElem?, List.getElem?_map, List.length_map, hget2]
        rfl
      have hts : ke.2.ts ≤ e.ts :=
        sorted_getLast_ge _ hle e.ts hlastts _ (List.mem_map_of_mem _ hmem)
      simp only [decide_eq_true_eq]
      omega
    rw [List.filter_eq_self.mpr hall]
    have hen : (orderEvents bo2 o).enum.getLast?
        = some ((orderEvents bo2 o).length - 1, e) := by
      rw [List.getLast?_eq_getElem?, List.enum_length, List.getElem?_enum, hget2]
      rfl
    rw [hen]
    exact hcur p
  · intro p
    unfold deltaCell
    rw [hcur p, zero_sub]

/-- Witness for C4: the cancelled order of `exCancel` contributes nothing
after its cancellation, and the cancel delta negates its prior posting. -/
theorem C4_witness :
    orderContrib exCancel 1 5 10 = 0
    ∧ deltaCell (orderEvents exCancel 1) ((orderEvents exCancel 1).length - 1) 10
      = - prevCell (orderEvents exCancel 1) ((orderEvents exCancel 1).length - 1) 10 :=
  ⟨(C4_full_cancellation_removes_contribution exCancel 1 (by decide)
      ⟨3, 1, 0, 10, 1, 1, 0⟩ (by decide) rfl).1 5 (by decide) 10,
   (C4_full_cancellation_removes_contribution exCancel 1 (by decide)
      ⟨3, 1, 0, 10, 1, 1, 0⟩ (by decide) rfl).2 10⟩

/-- C2 counterexample input: one bid order posting 100 at price 10 and then
fully cancelling, leaving no price with positive depth at time 2. -/
def exDrain : List Event :=
  [⟨1, 1, 100, 10, 1, 1, 0⟩, ⟨2, 1, 0, 10, 1, 1, 0⟩]

/-- C2 counterexample: at a timestamp where no price has strictly positive
depth, the spec's best bid is absent ("no quote"), but the code's bid column
holds the numeric value 0 (`max` over an all-zero indicator row), not an
absent value - unlike the ask side, whose `replace(0, np.nan)` yields NaN. -/
theorem C2_counterexample :
    specBestBidPrice exDrain 2 = none ∧ bestBidPrice exDrain 2 = 0 := by
  constructor
  · decide
  · decide

/-- C2 as amended: with nonnegative posted quantities on a time-ordered
stream, (i) whenever some price has strictly positive depth, the bid column
holds the maximum such price and the ask column the minimum such price
(absent otherwise), exactly as the spec demands; but (ii) when no price has
strictly positive depth the ask side is absent while the bid side degrades to
the numeric value 0. -/
theorem C2_best_prices_amended (bo2 : List Event) (t : Nat) (H : TimeOrdered bo2)
    (hq : ∀ e ∈ bo2, 0 ≤ e.qty) :
    (∀ q, specBestBidPrice bo2 t = some q → bestBidPrice bo2 t = q)
    ∧ bestAskPrice bo2 t = specBestAskPrice bo2 t
    ∧ (specBestBidPrice bo2 t = none → bestBidPrice bo2 t = 0) := by
  have hfe := filter_ne_eq_filter_pos bo2 t H hq
  refine ⟨?_, ?_, ?_⟩
  · intro q hsome
    unfold specBestBidPrice at hsome
    have hmax := (List.max?_eq_some_iff (fun a => le_refl a) max_choice
      (fun a b c => max_le_iff)).mp hsome
    unfold bestBidPrice
    rw [foldr_max_indicator, hfe]
    have hne : (prices bo2).filter (fun p => decide (0 < mbpCell bo2 t p)) ≠ [] :=
      List.ne_nil_of_mem hmax.1
    have hmem := foldr_max_mem _ hne
    have hle1 := le_foldr_max _ q hmax.1
    have hle2 := hmax.2 _ hmem
    omega
  · unfold bestAskPrice specBestAskPrice
    rw [hfe]
  · intro hnone
    unfold specBestBidPrice at hnone
    have hempty : (prices bo2).filter (fun p => decide (0 < mbpCell bo2 t p)) = [] := by
      cases hcase : (prices bo2).filter (fun p => decide (0 < mbpCell bo2 t p)) with
      | nil => rfl
      | cons a l =>
          rw [hcase] at hnone
          simp [List.max?] at hnone
    unfold bestBidPrice
    rw [foldr_max_indicator, hfe, hempty]
    rfl

/-- Witness for C2 as amended, on the two-order book. -/
theorem C2_amended_witness :
    bestBidPrice exBook 2 = 11 ∧ bestAskPrice exBook 2 = specBestAskPrice exBook 2 :=
  ⟨(C2_best_prices_amended exBook 2 (by decide) (by decide)).1 11 (by decide),
   (C2_best_prices_amended exBook 2 (by decide) (by decide)).2.1⟩

/-- C3: whenever a best bid (resp. best ask) price is defined - some price
column of the row is nonzero - the forward/backward fill returns exactly the
depth value at the reported best price on that row, never a value from a
different price column.  (The summed delta frame is dense, so the fill along
the sorted price axis stops at the best price's own column.) -/
theorem C3_best_size_is_depth_at_best_price (bo2 : List Event) (t : Nat) :
    ((∃ p ∈ prices bo2, mbpCell bo2 t p ≠ 0) →
      bestBidSize bo2 t = some (mbpCell bo2 t (bestBidPrice bo2 t)))
    ∧ (∀ q, bestAskPrice bo2 t = some q →
      bestAskSize bo2 t = some (mbpCell bo2 t q)) := by
  have hperm : ((sortedPrices bo2).filter (fun p => decide (mbpCell bo2 t p ≠ 0))).Perm
      ((prices bo2).filter (fun p => decide (mbpCell bo2 t p ≠ 0))) :=
    (sortAsc_perm (prices bo2)).filter _
  have hsortedF : ((sortedPrices bo2).filter
      (fun p => decide (mbpCell bo2 t p ≠ 0))).Pairwise (· ≤ ·) :=
    (sortAsc_sorted (prices bo2)).filter _
  constructor
  · rintro ⟨p0, hp0, hne0⟩
    have hpmem : p0 ∈ (prices bo2).filter (fun p => decide (mbpCell bo2 t p ≠ 0)) :=
      List.mem_filter.mpr ⟨hp0, by simpa using hne0⟩
    have hFne : (sortedPrices bo2).filter (fun p => decide (mbpCell bo2 t p ≠ 0)) ≠ [] :=
      List.ne_nil_of_mem (hperm.mem_iff.mpr hpmem)
    have hgl := List.getLast?_eq_getLast _ hFne
    unfold bestBidSize
    rw [hgl]
    have hg_mem := List.getLast_mem hFne
    have hdom := sorted_getLast_ge _ hsortedF _ hgl
    unfold bestBidPrice
    rw [foldr_max_indicator]
    have hSne : (prices bo2).filter (fun p => decide (mbpCell bo2 t p ≠ 0)) ≠ [] :=
      List.ne_nil_of_mem hpmem
    have hm_mem := foldr_max_mem _ hSne
    have hm_dom := le_foldr_max ((prices bo2).filter (fun p => decide (mbpCell bo2 t p ≠ 0)))
    have h1 := hm_dom _ (hperm.mem_iff.mp hg_mem)
    have h2 := hdom _ (hperm.mem_iff.mpr hm_mem)
    rw [le_antisymm h2 h1]
    rfl
  · intro q hqmin
    unfold bestAskPrice at hqmin
    have hmin := (List.min?_eq_some_iff (fun a => le_refl a) min_choice
      (fun a b c => le_min_iff)).mp hqmin
    have hqF : q ∈ (sortedPrices bo2).filter (fun p => decide (mbpCell bo2 t p ≠ 0)) :=
      hperm.mem_iff.mpr hmin.1
    have hFne := List.ne_nil_of_mem hqF
    unfold bestAskSize
    rw [List.head?_eq_head hFne]
    have hh_mem := List.head_mem hFne
    have hdom2 := sorted_head_le _ hsortedF _ (List.head?_eq_head hFne)
    have h1 := hdom2 q hqF
    have h2 := hmin.2 _ (hperm.mem_iff.mp hh_mem)
    rw [le_antisymm h1 h2]
    rfl

/-- Witness for C3 on the two-order book: both sizes are read at the
respective best prices. -/
theorem C3_witness :
    bestBidSize exBook 2 = some (mbpCell exBook 2 (bestBidPrice exBook 2))
    ∧ bestAskSize exBook 2 = some (mbpCell exBook 2 10) :=
  ⟨(C3_best_size_is_depth_at_best_price exBook 2).1 ⟨11, by decide, by decide⟩,
   (C3_best_size_is_depth_at_best_price exBook 2).2 10 (by decide)⟩

/-! ## Auction extractor lemmas and theorems -/

/-- Characterization of `find_morning_matching_price` on a nonempty window. -/
lemma find_morning_eq (df : List Event) (hne : df.filter inMorningWindow ≠ []) :
    find_morning_matching_price df
      = (some (mostFrequentTs (df.filter inMorningWindow)),
         match (matchingTrades (df.filter inMorningWindow)
             (mostFrequentTs (df.filter inMorningWindow))).head? with
         | some e => e.price
         | none => 0) := by
  have hemp : (df.filter inMorningWindow).isEmpty = false := by
    cases hcase : df.filter inMorningWindow with
    | nil => exact absurd hcase hne
    | cons a l => rfl
  simp only [find_morning_matching_price, hemp, Bool.false_eq_true, if_false]
  cases (matchingTrades (df.filter inMorningWindow)
      (mostFrequentTs (df.filter inMorningWindow))).head? <;> rfl

/-- Characterization of `find_closing_matching_price` on a nonempty window. -/
lemma find_closing_eq (df : List Event) (hne : df.filter inClosingWindow ≠ []) :
    find_closing_matching_price df
      = (some (mostFrequentTs (df.filter inClosingWindow)),
         match (matchingTrades (df.filter inClosingWindow)
             (mostFrequentTs (df.filter inClosingWindow))).head? with
         | some e => e.price
         | none => 0) := by
  have hemp : (df.filter inClosingWindow).isEmpty = false := by
    cases hcase : df.filter inClosingWindow with
    | nil => exact absurd hcase hne
    | cons a l => rfl
  simp only [find_closing_matching_price, hemp, Bool.false_eq_true, if_false]
  cases (matchingTrades (df.filter inClosingWindow)
      (mostFrequentTs (df.filter inClosingWindow))).head? <;> rfl

/-- C6: on a nonempty auction window (morning and closing alike), the
extractor returns the most frequent timestamp; the price is that of the first
window row at that timestamp flagged trade/match (`change_reason == 3`) with
nonzero posted quantity, or the sentinel 0 when no row qualifies, the
timestamp being returned either way. -/
theorem C6_matching_price_from_first_trade (df : List Event) :
    (df.filter inMorningWindow ≠ [] →
      (find_morning_matching_price df).1
          = some (mostFrequentTs (df.filter inMorningWindow))
      ∧ (matchingTrades (df.filter inMorningWindow)
            (mostFrequentTs (df.filter inMorningWindow)) = [] →
          (find_morning_matching_price df).2 = 0)
      ∧ (∀ e, (matchingTrades (df.filter inMorningWindow)
            (mostFrequentTs (df.filter inMorningWindow))).head? = some e →
          (find_morning_matching_price df).2 = e.price))
    ∧ (df.filter inClosingWindow ≠ [] →
      (find_closing_matching_price df).1
          = some (mostFrequentTs (df.filter inClosingWindow))
      ∧ (matchingTrades (df.filter inClosingWindow)
            (mostFrequentTs (df.filter inClosingWindow)) = [] →
          (find_closing_matching_price df).2 = 0)
      ∧ (∀ e, (matchingTrades (df.filter inClosingWindow)
            (mostFrequentTs (df.filter inClosingWindow))).head? = some e →
          (find_closing_matching_price df).2 = e.price)) := by
  constructor
  · intro hne
    rw [find_morning_eq df hne]
    refine ⟨rfl, ?_, ?_⟩
    · intro htr
      rw [htr]
      rfl
    · intro e he
      rw [he]
  · intro hne
    rw [find_closing_eq df hne]
    refine ⟨rfl, ?_, ?_⟩
    · intro htr
      rw [htr]
      rfl
    · intro e he
      rw [he]

/-- A morning window with one qualifying trade row (timestamp 32300 is
08:58:20) and a closing window with one qualifying trade row (timestamp 61500
is 17:05:00). -/
def exAuction : List Event :=
  [⟨32300, 1, 5, 99, 1, 3, 0⟩, ⟨32300, 2, 7, 98, 1, 1, 0⟩, ⟨61500, 3, 4, 77, 1, 3, 0⟩]

/-- Witness for C6: the concrete morning and closing matching prices come
from the first qualifying trade rows. -/
theorem C6_witness :
    (find_morning_matching_price exAuction).2 = 99
    ∧ (find_closing_matching_price exAuction).2 = 77 :=
  ⟨((C6_matching_price_from_first_trade exAuction).1 (by decide)).2.2
      ⟨32300, 1, 5, 99, 1, 3, 0⟩ (by decide),
   ((C6_matching_price_from_first_trade exAuction).2 (by decide)).2.2
      ⟨61500, 3, 4, 77, 1, 3, 0⟩ (by decide)⟩

/-- C7: an empty auction window yields the sentinel (absent timestamp, zero
price) from both extractors, and a sentinel timestamp makes the quote lookup
return (0, 0) for every input frame, i.e. without consulting the quote
data. -/
theorem C7_empty_window_and_sentinel_lookup :
    (∀ df : List Event, df.filter inMorningWindow = [] →
      find_morning_matching_price df = (none, 0))
    ∧ (∀ df : List Event, df.filter inClosingWindow = [] →
      find_closing_matching_price df = (none, 0))
    ∧ (∀ (df : List Event) (c : Bool), find_bid_ask_prices df none c = (0, 0)) := by
  refine ⟨?_, ?_, ?_⟩
  · intro df h
    unfold find_morning_matching_price
    rw [h]
    rfl
  · intro df h
    unfold find_closing_matching_price
    rw [h]
    rfl
  · intro df c
    rfl

/-- Witness for C7: a frame with no auction-window rows yields the sentinels,
and the sentinel timestamp short-circuits the lookup. -/
theorem C7_witness :
    find_morning_matching_price exBook = (none, 0)
    ∧ find_closing_matching_price exBook = (none, 0)
    ∧ find_bid_ask_prices exBook none true = (0, 0) :=
  ⟨C7_empty_window_and_sentinel_lookup.1 exBook (by decide),
   C7_empty_window_and_sentinel_lookup.2.1 exBook (by decide),
   C7_empty_window_and_sentinel_lookup.2.2 exBook true⟩

/-- C8: a closing quote lookup with a non-sentinel timestamp reads the fixed
pre-close window 16:59:00-17:00:00, not the matching timestamp (the result is
the same for any timestamp argument); an empty window yields (0, 0); a
nonempty window yields each side's quote as the `bestprice` of its last
window row, 0 for a side with no window rows. -/
theorem C8_closing_quotes_from_preclose_window :
    (∀ (df : List Event) (t1 t2 : Nat),
        find_bid_ask_prices df (some t1) true = find_bid_ask_prices df (some t2) true)
    ∧ (∀ (df : List Event) (t : Nat), df.filter inPrecloseWindow = [] →
        find_bid_ask_prices df (some t) true = (0, 0))
    ∧ (∀ (df : List Event) (t : Nat), df.filter inPrecloseWindow ≠ [] →
        find_bid_ask_prices df (some t) true
          = ((((df.filter inPrecloseWindow).filter (fun e => e.side == 1)).getLast?.map
                (fun e => e.bestprice)).getD 0,
             (((df.filter inPrecloseWindow).filter (fun e => e.side == 2)).getLast?.map
                (fun e => e.bestprice)).getD 0)) := by
  refine ⟨?_, ?_, ?_⟩
  · intro df t1 t2
    rfl
  · intro df t h
    unfold find_bid_ask_prices
    rw [h]
    rfl
  · intro df t hne
    unfold find_bid_ask_prices
    have hemp : (df.filter inPrecloseWindow).isEmpty = false := by
      cases hcase : df.filter inPrecloseWindow with
      | nil => exact absurd hcase hne
      | cons a l => rfl
    simp only [if_true, hemp, Bool.false_eq_true, if_false]

/-- The spec's closing scenario: one ask event in the pre-close window at
best price 55.20 (5520 ticks), size 200, and no bid events. -/
def exPreclose : List Event :=
  [⟨61150, 9, 200, 5520, 2, 1, 5520⟩]

/-- Witness for C8: the scenario yields bid 0 and the ask quote from the lone
window event, for a matching timestamp outside the window. -/
theorem C8_witness :
    find_bid_ask_prices exPreclose (some 61500) true = (0, 5520) :=
  ((C8_closing_quotes_from_preclose_window.2.2 exPreclose 61500 (by decide)).trans
    (by decide))

/-! ## Reconstructor failure semantics (C9) -/

/-- A malformed input: order 7's stream has non-monotonic timestamps (5 then
3), and the third record's side tag is neither bid (1) nor ask (2). -/
def exNonMono : List Event :=
  [⟨5, 7, 100, 10, 1, 1, 0⟩, ⟨3, 7, 50, 11, 1, 1, 0⟩, ⟨4, 8, 20, 12, 0, 1, 0⟩]

/-- C9 counterexample: this malformed input (non-monotonic per-order
timestamps, a record with a missing side tag) is processed without any error
being raised - the bid-side stream is not time-ordered, yet `process`
succeeds, silently reordering the pivot rows and silently dropping the
unrecognized side tag. -/
theorem C9_counterexample :
    ¬ TimeOrdered (sideEvents exNonMono 1) ∧ processE exNonMono = Except.ok () := by
  constructor
  · decide
  · rfl

/-- `build_order_history` succeeds exactly when every order's pivot reshapes,
i.e. no order repeats a (timestamp, price) pair. -/
lemma buildOrderHistoryE_ok_iff (bo2 : List Event) :
    buildOrderHistoryE bo2 = Except.ok ()
      ↔ (orderIds bo2).all (fun o => pivotOk (orderEvents bo2 o)) = true := by
  unfold buildOrderHistoryE
  by_cases h : (orderIds bo2).all (fun o => pivotOk (orderEvents bo2 o)) = true
  · rw [if_pos h]
    simp [h]
  · rw [if_neg h]
    simp [h]

/-- C9 as amended: the reconstruction raises exactly when some order's stream
repeats a (timestamp, price) pair on one side (the pandas pivot's reshape
error); records whose side tag is neither 1 nor 2 are silently dropped by the
side selection, and non-monotonic timestamps are not detected at all. -/
theorem C9_error_only_on_duplicate_pivot_entries :
    (∀ df : List Event, processE df = Except.ok ()
        ↔ ((orderIds (sideEvents df 1)).all
              (fun o => pivotOk (orderEvents (sideEvents df 1) o)) = true
           ∧ (orderIds (sideEvents df 2)).all
              (fun o => pivotOk (orderEvents (sideEvents df 2) o)) = true))
    ∧ (∀ (e : Event) (df : List Event) (s : Nat), e.side ≠ s →
        sideEvents (e :: df) s = sideEvents df s) := by
  constructor
  · intro df
    constructor
    · intro hok
      unfold processE at hok
      cases hcase : buildOrderHistoryE (sideEvents df 1) with
      | error err =>
          rw [hcase] at hok
          exact Except.noConfusion hok
      | ok u =>
          cases u
          rw [hcase] at hok
          have hok2 : buildOrderHistoryE (sideEvents df 2) = Except.ok () := hok
          exact ⟨(buildOrderHistoryE_ok_iff _).mp hcase,
            (buildOrderHistoryE_ok_iff _).mp hok2⟩
    · rintro ⟨h1, h2⟩
      unfold processE
      rw [(buildOrderHistoryE_ok_iff _).mpr h1]
      exact (buildOrderHistoryE_ok_iff _).mpr h2
  · intro e df s hne
    unfold sideEvents
    rw [List.filter_cons]
    have hfalse : (e.side == s) = false := by
      simpa using hne
    simp [hfalse]

/-- Witness for C9 as amended: a record with side tag 0 is dropped from both
sides. -/
theorem C9_amended_witness :
    sideEvents ((⟨4, 8, 20, 12, 0, 1, 0⟩ : Event) :: exBook) 1 = sideEvents exBook 1
    ∧ (processE exNonMono = Except.ok ()
        ↔ ((orderIds (sideEvents exNonMono 1)).all
              (fun o => pivotOk (orderEvents (sideEvents exNonMono 1) o)) = true
           ∧ (orderIds (sideEvents exNonMono 2)).all
              (fun o => pivotOk (orderEvents (sideEvents exNonMono 2) o)) = true)) :=
  ⟨C9_error_only_on_duplicate_pivot_entries.2 ⟨4, 8, 20, 12, 0, 1, 0⟩ exBook 1
      (by decide),
   C9_error_only_on_duplicate_pivot_entries.1 exNonMono⟩

/-! ## Interval filtering (C10) -/

/-- Membership in the output of `filter_data` with a supplied start, a
supplied end and an interval: the inclusive end-time cut is applied before
the interval window, so both constrain the kept rows. -/
lemma filter_data_interval_mem (rows : List Row) (s e : Nat) (iv : Interval)
    (out : List Row)
    (hok : filter_data rows none (some s) (some e) (some iv) = Except.ok out) :
    ∀ r, r ∈ out ↔ r ∈ rows ∧ s ≤ r.ts ∧ r.ts ≤ e ∧ r.ts < s + intervalSeconds iv := by
  unfold filter_data at hok
  by_cases h1 : rows.isEmpty
  · rw [if_pos h1] at hok
    exact absurd hok (by simp)
  · rw [if_neg h1] at hok
    simp only [Option.isSome_none, Bool.false_eq_true, false_and, if_false] at hok
    by_cases h4 : ((((rows.filter (fun r => decide (s ≤ r.ts))).filter
        (fun r => decide (r.ts ≤ e))).filter
        (fun r => decide (s ≤ r.ts ∧ r.ts < s + intervalSeconds iv)))).isEmpty
    · rw [if_pos h4] at hok
      exact absurd hok (by simp)
    · rw [if_neg h4] at hok
      have hout : sortRows ((((rows.filter (fun r => decide (s ≤ r.ts))).filter
          (fun r => decide (r.ts ≤ e))).filter
          (fun r => decide (s ≤ r.ts ∧ r.ts < s + intervalSeconds iv)))) = out := by
        simpa using hok
      intro r
      rw [← hout, (sortRows_perm _).mem_iff]
      simp only [List.mem_filter, decide_eq_true_eq]
      constructor
      · rintro ⟨⟨⟨hr, h2⟩, h3⟩, _, h5⟩
        exact ⟨hr, h2, h3, h5⟩
      · rintro ⟨hr, h2, h3, h5⟩
        exact ⟨⟨⟨hr, h2⟩, h3⟩, h2, h5⟩

/-- Membership in the output of `filter_data` with only an interval: the
window starts at the minimum timestamp of the (otherwise unfiltered) data. -/
lemma filter_data_interval_default_mem (rows : List Row) (iv : Interval)
    (out : List Row)
    (hok : filter_data rows none none none (some iv) = Except.ok out) :
    ∀ r, r ∈ out ↔ r ∈ rows
      ∧ ((rows.map Row.ts).min?).getD 0 ≤ r.ts
      ∧ r.ts < ((rows.map Row.ts).min?).getD 0 + intervalSeconds iv := by
  unfold filter_data at hok
  by_cases h1 : rows.isEmpty
  · rw [if_pos h1] at hok
    exact absurd hok (by simp)
  · rw [if_neg h1] at hok
    simp only [Option.isSome_none, Bool.false_eq_true, false_and, if_false] at hok
    by_cases h4 : (rows.filter (fun r => decide (((rows.map Row.ts).min?).getD 0 ≤ r.ts
        ∧ r.ts < ((rows.map Row.ts).min?).getD 0 + intervalSeconds iv))).isEmpty
    · rw [if_pos h4] at hok
      exact absurd hok (by simp)
    · rw [if_neg h4] at hok
      have hout : sortRows (rows.filter
          (fun r => decide (((rows.map Row.ts).min?).getD 0 ≤ r.ts
            ∧ r.ts < ((rows.map Row.ts).min?).getD 0 + intervalSeconds iv))) = out := by
        simpa using hok
      intro r
      rw [← hout, (sortRows_perm _).mem_iff]
      simp only [List.mem_filter, decide_eq_true_eq, and_assoc]

/-- Rows used by the C10 counterexample and witness. -/
def exRows : List Row :=
  [⟨7, 0⟩, ⟨7, 100⟩]

/-- C10 counterexample: with start 0, end 50 and interval "1d", the row at
timestamp 100 satisfies start ≤ ts < start + delta, yet it is not kept - the
inclusive end-time filter has already removed it, so the supplied end time is
not overridden by the interval window. -/
theorem C10_counterexample :
    filter_data exRows none (some 0) (some 50) (some Interval.d1)
        = Except.ok [⟨7, 0⟩]
    ∧ (0 ≤ 100 ∧ 100 < 0 + intervalSeconds Interval.d1) := by
  constructor
  · rfl
  · decide

/-- C10 as amended: with an interval, the kept rows are exactly those passing
the inclusive supplied end-time cut AND the half-open window
start ≤ ts < start + delta (strict upper bound); when no start time is
supplied the window starts at the minimum timestamp of the already-filtered
data. -/
theorem C10_interval_window_amended :
    (∀ (rows : List Row) (s e : Nat) (iv : Interval) (out : List Row),
        filter_data rows none (some s) (some e) (some iv) = Except.ok out →
        ∀ r, r ∈ out ↔ r ∈ rows ∧ s ≤ r.ts ∧ r.ts ≤ e
          ∧ r.ts < s + intervalSeconds iv)
    ∧ (∀ (rows : List Row) (iv : Interval) (out : List Row),
        filter_data rows none none none (some iv) = Except.ok out →
        ∀ r, r ∈ out ↔ r ∈ rows
          ∧ ((rows.map Row.ts).min?).getD 0 ≤ r.ts
          ∧ r.ts < ((rows.map Row.ts).min?).getD 0 + intervalSeconds iv) :=
  ⟨filter_data_interval_mem, filter_data_interval_default_mem⟩

/-- Witness for C10 as amended: with end time 100 the whole window survives
and membership matches the amended description. -/
theorem C10_amended_witness :
    filter_data exRows none (some 0) (some 100) (some Interval.d1) = Except.ok exRows
    ∧ ((⟨7, 100⟩ : Row) ∈ exRows ↔ (⟨7, 100⟩ : Row) ∈ exRows
        ∧ 0 ≤ (100 : Nat) ∧ (100 : Nat) ≤ 100
        ∧ (100 : Nat) < 0 + intervalSeconds Interval.d1) :=
  ⟨by rfl,
   C10_interval_window_amended.1 exRows 0 100 Interval.d1 exRows (by rfl) ⟨7, 100⟩⟩

end HftDataPrep
